import Mathlib

/-!
Shallow embedding of `demo.py` from lightweight-human-pose-estimation.pytorch.

Pixel values and coordinates (numpy float32 in the source) are modelled as
exact rationals `ℚ`; integer image dimensions and counters as `ℕ`/`ℤ`.
Python exceptions (numpy/list IndexError) are modelled with `Option`/`Except`:
`none`/`.error` means the frame loop aborts with an uncaught exception.
The modules imported by `demo.py` (`modules.keypoints`, `modules.pose`,
`trt_engine`, the network) are not part of this repository snapshot's sources;
where a claim depends on them they are taken as abstract function parameters
or modelled from the spec, as documented on each definition.
-/

namespace Demo

/-- One heatmap channel: a 2D scalar field (row-major list of rows). -/
abbrev Channel : Type := List (List ℚ)

/-- The PAF field, opaque to the code in `demo.py` (only passed through
to `group_keypoints`). -/
abbrev Pafs : Type := List (List (List ℚ))

/-- Python `int(q)` on a float: truncation toward zero. -/
def ratTrunc (q : ℚ) : ℤ := if 0 ≤ q then ⌊q⌋ else ⌈q⌉

/-- Python/numpy sequence indexing `l[i]`: nonnegative indices from the
front, negative indices from the back, out of range raises (here: `none`). -/
def pyIndex {α : Type} (l : List α) (i : ℤ) : Option α :=
  if 0 ≤ i then l.get? i.toNat
  else if (-i).toNat ≤ l.length then l.get? (l.length - (-i).toNat)
  else none

/-- `stride = 8` set in `run_demo`. -/
def stride : ℕ := 8

/-- `upsample_ratio = 4` set in `run_demo` (name adapted). -/
def upsampleFactor : ℕ := 4

/-- Modelled from the spec: `Pose.num_kpts` lives in `modules/pose.py`,
which is not among the sources; the spec fixes 18 body joint types
("ordered sequence of 18 (x,y) keypoint coordinates"). -/
def num_keypoints : ℕ := 18

/-- One row of the consolidated candidate table `all_keypoints` returned by
`group_keypoints`: columns are x, y, confidence, global id.  Only columns
0 and 1 are read or written by the code in `demo.py`. -/
structure KeypointRow where
  x : ℚ
  y : ℚ
  conf : ℚ
  gid : ℚ
  deriving DecidableEq, Repr

/-- Modelled from the spec: the `Pose` class lives in `modules/pose.py`,
which is not among the sources.  `run_demo` constructs it from the 18
integer keypoint pairs and the confidence in slot 18 of the pose entry;
tracking identity is internal to `modules/pose.py` and kept abstract. -/
structure Pose where
  kpts : List (ℤ × ℤ)
  conf : ℚ
  deriving DecidableEq, Repr

/-- A keypoint candidate as produced by `extract_keypoints`
(`modules/keypoints.py`, not among the sources): location, confidence and
the frame-global id. -/
structure Cand where
  x : ℚ
  y : ℚ
  conf : ℚ
  gid : ℕ
  deriving DecidableEq, Repr

/-- `math.ceil(a / float(s)) * s` as computed in `pad_width`
(float division modelled exactly on rationals). -/
def ceilMul (a s : ℕ) : ℤ := ⌈(a : ℚ) / (s : ℚ)⌉ * s

/-- `pad_width(img, stride, pad_value, min_dims)` from `demo.py`
(lines 22–40), minus the `cv2.copyMakeBorder` call which only produces the
padded pixel data.  The in-place mutation of `min_dims` is modelled by
returning the updated pair alongside the four pads. -/
def pad_width (h w : ℕ) (s : ℕ) (minDims : ℕ × ℕ) : List ℤ × (ℤ × ℤ) :=
  let h' : ℕ := min minDims.1 h
  let m0 : ℤ := ceilMul minDims.1 s
  let m1 : ℤ := ceilMul (max minDims.2 w) s
  let p0 : ℤ := ⌊((m0 - h' : ℤ) : ℚ) / 2⌋
  let p1 : ℤ := ⌊((m1 - w : ℤ) : ℚ) / 2⌋
  let p2 : ℤ := m0 - h' - p0
  let p3 : ℤ := m1 - w - p1
  ([p0, p1, p2, p3], (m0, m1))

/-- `scale = net_input_height_size / height` from `infer_fast` (line 97). -/
def inferScale (netH height : ℚ) : ℚ := netH / height

/-- Forward coordinate transform of `infer_fast` on an ideal point:
resize by `scale` (line 99), shift by the left/top pads (line 108), and map
into upsampled-heatmap space via the `upsample/stride` factor (the network
downsamples by `stride`, line 125 upsamples by `upsample_ratio`). -/
def forwardPoint (netH height : ℚ) (p0 p1 : ℚ) (s u : ℚ) (pt : ℚ × ℚ) :
    ℚ × ℚ :=
  let scale := inferScale netH height
  ((pt.1 * scale + p1) * u / s, (pt.2 * scale + p0) * u / s)

/-- Inverse mapping applied by `run_demo` (lines 177–181), generalized over
stride and upsample factor: `x_image = (x_hm * stride / upsample - pad[1]) /
scale`, same for y with `pad[0]`. -/
def inversePoint (netH height : ℚ) (p0 p1 : ℚ) (s u : ℚ) (pt : ℚ × ℚ) :
    ℚ × ℚ :=
  let scale := inferScale netH height
  ((pt.1 * s / u - p1) / scale, (pt.2 * s / u - p0) / scale)

/-- The rescale loop of `run_demo` (lines 177–181) over the consolidated
candidate table, with the fixed `stride = 8` and `upsample_ratio = 4`:
column 0 uses `pad[1]`, column 1 uses `pad[0]`. -/
def rescaleKeypoints (scale : ℚ) (p0 p1 : ℤ) (allk : List KeypointRow) :
    List KeypointRow :=
  allk.map fun r =>
    { r with
      x := (r.x * (stride : ℚ) / (upsampleFactor : ℚ) - (p1 : ℚ)) / scale
      y := (r.y * (stride : ℚ) / (upsampleFactor : ℚ) - (p0 : ℚ)) / scale }

/-- One slot of `pose_keypoints` as filled by the inner loop of `run_demo`
(lines 187–192): the row stays `(-1, -1)` when the entry slot holds the
sentinel `-1.0`, otherwise it is set to the truncated coordinates of the
candidate row indexed by the slot's (float) global id. -/
def poseSlot (entry : List ℚ) (allk : List KeypointRow) (kid : ℕ) :
    Option (ℤ × ℤ) :=
  match entry.get? kid with
  | none => none
  | some v =>
    if v = -1 then some (-1, -1)
    else
      match pyIndex allk (ratTrunc v) with
      | none => none
      | some r => some (ratTrunc r.x, ratTrunc r.y)

/-- Construction of one `Pose` from a nonempty pose entry (`run_demo`
lines 186–193): the 18 keypoint rows and the confidence from slot 18. -/
def buildPose (entry : List ℚ) (allk : List KeypointRow) : Option Pose :=
  match (List.range num_keypoints).mapM (poseSlot entry allk),
      entry.get? 18 with
  | some ks, some c => some ⟨ks, c⟩
  | _, _ => none

/-- The `current_poses` construction loop of `run_demo` (lines 182–194):
pose entries of length 0 are skipped (`continue`), every other entry is
turned into a `Pose`; an out-of-range access aborts the frame (`none`). -/
def buildPoses : List (List ℚ) → List KeypointRow → Option (List Pose)
  | [], _ => some []
  | e :: es, allk =>
    if e.length = 0 then buildPoses es allk
    else
      match buildPose e allk, buildPoses es allk with
      | some p, some ps => some (p :: ps)
      | _, _ => none

/-- The error a frame can abort with when numpy/list indexing goes out of
range in the `run_demo` per-frame code. -/
inductive FrameError : Type
  | indexError : ℕ → FrameError
  deriving DecidableEq, Repr

/-- The channel accesses `heatmaps[:, :, kpt_idx]` performed by the
extraction loop of `run_demo` (lines 170–173): one per `kpt_idx` in
`range(num_keypoints)`; a missing channel raises (aborts the frame)
before the grouping stage. -/
def extractChannels (heatmaps : List Channel) (n : ℕ) :
    Except FrameError (List Channel) :=
  (List.range n).mapM fun k =>
    match heatmaps.get? k with
    | some c => Except.ok c
    | none => Except.error (FrameError.indexError k)

/-- The per-joint-type extraction loop of `run_demo` (lines 168–173) with
`extract_keypoints` (from `modules/keypoints.py`, not among the sources)
abstracted as `extract channel counter ↦ candidates found`: the running
total starts at 0 and each call receives the current total and advances it
by the number of candidates it returned; the per-type candidate lists are
appended to `all_keypoints_by_type` in order. -/
def extractLoopState (extract : Channel → ℕ → List Cand)
    (chans : List Channel) : ℕ × List (List Cand) :=
  chans.foldl
    (fun acc ch =>
      let found := extract ch acc.1
      (acc.1 + found.length, acc.2 ++ [found]))
    (0, [])

/-- The running counter handed to the k-th call of `extract_keypoints`
(the loop state after the first k iterations). -/
def counterPassed (extract : Channel → ℕ → List Cand)
    (chans : List Channel) (k : ℕ) : ℕ :=
  (extractLoopState extract (chans.take k)).1

/-- All inference outputs `run_demo` consumes for one frame
(`heatmaps, pafs, scale, pad = infer_fast(...)`, line 160). -/
structure FrameData where
  heatmaps : List Channel
  pafs : Pafs
  scale : ℚ
  pad : List ℤ

/-- The pure heatmaps-to-skeletons part of one `run_demo` iteration
(lines 168–194): extraction loop, grouping (`group_keypoints` from
`modules/keypoints.py`, not among the sources, abstracted as `group`),
coordinate rescale, pose construction.  Tracking is not included: this is
the value `current_poses` holds before the `if track:` branch. -/
def framePoses (extract : Channel → ℕ → List Cand)
    (group : List (List Cand) → Pafs → List (List ℚ) × List KeypointRow)
    (fd : FrameData) : Option (List Pose) :=
  match extractChannels fd.heatmaps num_keypoints with
  | Except.error _ => none
  | Except.ok chans =>
    match group (extractLoopState extract chans).2 fd.pafs with
    | (entries, allk) =>
      match fd.pad.get? 0, fd.pad.get? 1 with
      | some p0, some p1 =>
        buildPoses entries (rescaleKeypoints fd.scale p0 p1 allk)
      | _, _ => none

/-- One full `run_demo` iteration including the `if track:` branch
(lines 196–198).  `track_poses` (from `modules/pose.py`, not among the
sources) is abstracted as `trackP prev current smooth ↦ current'`, the
in-place identity assignment/smoothing modelled by returning the updated
`current_poses`; `previous_poses` is reassigned only when `track` is set,
exactly as in the source.  Returns `(current_poses, previous_poses)`. -/
def perFrame (extract : Channel → ℕ → List Cand)
    (group : List (List Cand) → Pafs → List (List ℚ) × List KeypointRow)
    (trackP : List Pose → List Pose → Bool → List Pose)
    (track smooth : Bool) (fd : FrameData) (prev : List Pose) :
    Option (List Pose × List Pose) :=
  match framePoses extract group fd with
  | none => none
  | some current =>
    let current' := if track then trackP prev current smooth else current
    let prev' := if track then current' else prev
    some (current', prev')

/-- The frame loop of `run_demo` (lines 154, 158–198): `previous_poses`
starts empty at every run and is threaded through the frames; the list of
per-frame `current_poses` is collected.  An aborted frame aborts the run
(uncaught exception). -/
def runLoop (extract : Channel → ℕ → List Cand)
    (group : List (List Cand) → Pafs → List (List ℚ) × List KeypointRow)
    (trackP : List Pose → List Pose → Bool → List Pose)
    (track smooth : Bool) :
    List FrameData → List Pose → Option (List (List Pose))
  | [], _ => some []
  | fd :: fds, prev =>
    match perFrame extract group trackP track smooth fd prev with
    | none => none
    | some (cur, prev') =>
      (runLoop extract group trackP track smooth fds prev').map
        fun outs => cur :: outs

/-- The `__main__` driver's effective `track` flag (lines 273–277): when
`--video` is empty the provider is an `ImageReader` over still images and
`args.track` is forced to 0. -/
def effectiveTrack (video : String) (track : ℤ) : ℤ :=
  if video ≠ "" then track else 0

/-- `run_demo` on a stream of per-frame inference outputs: the frame loop
started from the empty `previous_poses` initialized at line 154 — the
tracker state lives only inside one run. -/
def run_demo (extract : Channel → ℕ → List Cand)
    (group : List (List Cand) → Pafs → List (List ℚ) × List KeypointRow)
    (trackP : List Pose → List Pose → Bool → List Pose)
    (track smooth : Bool) (fds : List FrameData) :
    Option (List (List Pose)) :=
  runLoop extract group trackP track smooth fds []

/-! ### Helper lemmas -/

lemma ceil_natCast_div (a s : ℕ) (hs : 0 < s) :
    ⌈(a : ℚ) / (s : ℚ)⌉ = ((a ⌈/⌉ s : ℕ) : ℤ) := by
  have hsq : (0 : ℚ) < (s : ℚ) := by exact_mod_cast hs
  rw [Int.ceil_eq_iff]
  constructor
  · rw [lt_div_iff hsq]
    rcases Nat.eq_zero_or_pos (a ⌈/⌉ s) with hq | hq
    · rw [hq]
      push_cast
      have ha : (0 : ℚ) ≤ (a : ℚ) := by positivity
      nlinarith
    · obtain ⟨t, ht⟩ := Nat.exists_eq_add_of_lt hq
      have hnot : ¬ (a ⌈/⌉ s ≤ t) := by omega
      rw [ceilDiv_le_iff_le_smul hs, smul_eq_mul] at hnot
      have hlt : s * t < a := by omega
      have hltq : ((s : ℚ)) * (t : ℚ) < (a : ℚ) := by exact_mod_cast hlt
      have ht' : a ⌈/⌉ s = t + 1 := by omega
      have hq1 : ((a ⌈/⌉ s : ℕ) : ℚ) = (t : ℚ) + 1 := by
        exact_mod_cast congrArg (Nat.cast : ℕ → ℚ) ht'
      push_cast
      rw [hq1]
      nlinarith
  · rw [div_le_iff hsq]
    have hle : a ≤ s • (a ⌈/⌉ s) := le_smul_ceilDiv hs
    rw [smul_eq_mul] at hle
    have hleq : (a : ℚ) ≤ ((s : ℚ)) * ((a ⌈/⌉ s : ℕ) : ℚ) := by
      exact_mod_cast hle
    push_cast
    linarith

lemma le_ceilMul (a s : ℕ) (hs : 0 < s) : (a : ℤ) ≤ ceilMul a s := by
  unfold ceilMul
  rw [ceil_natCast_div a s hs]
  have hle : a ≤ s • (a ⌈/⌉ s) := le_smul_ceilDiv hs
  rw [smul_eq_mul, Nat.mul_comm] at hle
  exact_mod_cast hle

lemma floor_half_nonneg (t : ℤ) (ht : 0 ≤ t) : 0 ≤ ⌊((t : ℤ) : ℚ) / 2⌋ := by
  apply Int.floor_nonneg.mpr
  positivity

lemma floor_half_le (t : ℤ) (ht : 0 ≤ t) : ⌊((t : ℤ) : ℚ) / 2⌋ ≤ t := by
  have h1 : ((t : ℤ) : ℚ) / 2 ≤ ((t : ℤ) : ℚ) := by
    have : (0 : ℚ) ≤ ((t : ℤ) : ℚ) := by exact_mod_cast ht
    linarith
  calc ⌊((t : ℤ) : ℚ) / 2⌋ ≤ ⌊((t : ℤ) : ℚ)⌋ := Int.floor_le_floor h1
    _ = t := Int.floor_intCast t

/-! ### C10: pad_width -/

/-- C10: for an image of height `h ≤ min_dims[0]` and width `w`, and any
stride `s ≥ 1`, `pad_width` returns four nonnegative pads with
`pad[0] + pad[2] = ⌈min_dims[0]/s⌉*s - h` and
`pad[1] + pad[3] = ⌈max(min_dims[1], w)/s⌉*s - w`, `pad[0]`/`pad[1]` being
the floor of half the vertical/horizontal padding; the padded height and
width are multiples of the stride and at least the requested minimum
dimensions, and `min_dims` is mutated to exactly those rounded-up values. -/
theorem pad_width_spec (h w s m0 m1 : ℕ) (hh : h ≤ m0) (hs : 1 ≤ s) :
    ∃ p0 p1 p2 p3 : ℤ,
      (pad_width h w s (m0, m1)).1 = [p0, p1, p2, p3] ∧
      0 ≤ p0 ∧ 0 ≤ p1 ∧ 0 ≤ p2 ∧ 0 ≤ p3 ∧
      p0 + p2 = ⌈(m0 : ℚ) / (s : ℚ)⌉ * s - h ∧
      p1 + p3 = ⌈((max m1 w : ℕ) : ℚ) / (s : ℚ)⌉ * s - w ∧
      p0 = ⌊((p0 + p2 : ℤ) : ℚ) / 2⌋ ∧
      p1 = ⌊((p1 + p3 : ℤ) : ℚ) / 2⌋ ∧
      (s : ℤ) ∣ (h + p0 + p2) ∧ (s : ℤ) ∣ (w + p1 + p3) ∧
      (m0 : ℤ) ≤ h + p0 + p2 ∧ (m1 : ℤ) ≤ w + p1 + p3 ∧
      (pad_width h w s (m0, m1)).2 = (h + p0 + p2, w + p1 + p3) := by
  have hs0 : 0 < s := hs
  have hmin : min m0 h = h := min_eq_right hh
  have hm0 : (m0 : ℤ) ≤ ceilMul m0 s := le_ceilMul m0 s hs0
  have hm1 : ((max m1 w : ℕ) : ℤ) ≤ ceilMul (max m1 w) s :=
    le_ceilMul (max m1 w) s hs0
  have hh0 : (h : ℤ) ≤ ceilMul m0 s := le_trans (by exact_mod_cast hh) hm0
  have hw0 : (w : ℤ) ≤ ceilMul (max m1 w) s :=
    le_trans (by exact_mod_cast le_max_right m1 w) hm1
  have hm1' : (m1 : ℤ) ≤ ceilMul (max m1 w) s :=
    le_trans (by exact_mod_cast le_max_left m1 w) hm1
  refine ⟨⌊((ceilMul m0 s - h : ℤ) : ℚ) / 2⌋,
      ⌊((ceilMul (max m1 w) s - w : ℤ) : ℚ) / 2⌋,
      ceilMul m0 s - h - ⌊((ceilMul m0 s - h : ℤ) : ℚ) / 2⌋,
      ceilMul (max m1 w) s - w - ⌊((ceilMul (max m1 w) s - w : ℤ) : ℚ) / 2⌋,
      ?_, ?_, ?_, ?_, ?_, ?_, ?_, ?_, ?_, ?_, ?_, ?_, ?_, ?_⟩
  · simp only [pad_width, hmin]
  · exact floor_half_nonneg _ (by omega)
  · exact floor_half_nonneg _ (by omega)
  · have := floor_half_le (ceilMul m0 s - h) (by omega)
    omega
  · have := floor_half_le (ceilMul (max m1 w) s - w) (by omega)
    omega
  · unfold ceilMul; ring
  · unfold ceilMul; ring
  · congr 1; push_cast; ring
  · congr 1; push_cast; ring
  · have heq : (h : ℤ) + (⌊((ceilMul m0 s - h : ℤ) : ℚ) / 2⌋) +
        (ceilMul m0 s - h - ⌊((ceilMul m0 s - h : ℤ) : ℚ) / 2⌋) =
        ceilMul m0 s := by ring
    rw [heq]
    exact ⟨⌈(m0 : ℚ) / (s : ℚ)⌉, by unfold ceilMul; ring⟩
  · have heq : (w : ℤ) + (⌊((ceilMul (max m1 w) s - w : ℤ) : ℚ) / 2⌋) +
        (ceilMul (max m1 w) s - w -
          ⌊((ceilMul (max m1 w) s - w : ℤ) : ℚ) / 2⌋) =
        ceilMul (max m1 w) s := by ring
    rw [heq]
    exact ⟨⌈((max m1 w : ℕ) : ℚ) / (s : ℚ)⌉, by unfold ceilMul; ring⟩
  · omega
  · omega
  · simp only [pad_width, hmin, Prod.mk.injEq]
    constructor <;> ring

/-- Witness for C10 at `h = 256, w = 300, s = 8, min_dims = (256, 344)`. -/
theorem pad_width_spec_witness :
    (256 ≤ 256 ∧ 1 ≤ 8) ∧
    (∃ p0 p1 p2 p3 : ℤ,
      (pad_width 256 300 8 (256, 344)).1 = [p0, p1, p2, p3] ∧
      0 ≤ p0 ∧ 0 ≤ p1 ∧ 0 ≤ p2 ∧ 0 ≤ p3 ∧
      p0 + p2 = ⌈(256 : ℚ) / (8 : ℚ)⌉ * 8 - 256 ∧
      p1 + p3 = ⌈((max 344 300 : ℕ) : ℚ) / (8 : ℚ)⌉ * 8 - 300 ∧
      p0 = ⌊((p0 + p2 : ℤ) : ℚ) / 2⌋ ∧
      p1 = ⌊((p1 + p3 : ℤ) : ℚ) / 2⌋ ∧
      (8 : ℤ) ∣ (256 + p0 + p2) ∧ (8 : ℤ) ∣ (300 + p1 + p3) ∧
      (256 : ℤ) ≤ 256 + p0 + p2 ∧ (344 : ℤ) ≤ 300 + p1 + p3 ∧
      (pad_width 256 300 8 (256, 344)).2 = (256 + p0 + p2, 300 + p1 + p3)) :=
  ⟨⟨by decide, by decide⟩, by
    have := pad_width_spec 256 300 8 256 344 (by decide) (by decide)
    exact_mod_cast this⟩

/-! ### C2: coordinate round trip -/

/-- C2: for every point in original-image space and every positive
configuration, the forward normalize/pad/heatmap transform of `infer_fast`
followed by the inverse image-space mapping of `run_demo` recovers the
point exactly, hence within 1 pixel. -/
theorem coordinate_round_trip (netH height p0 p1 s u x y : ℚ)
    (hh : 0 < height) (hn : 0 < netH) (hs : 0 < s) (hu : 0 < u) :
    inversePoint netH height p0 p1 s u
        (forwardPoint netH height p0 p1 s u (x, y)) = (x, y) ∧
    |(inversePoint netH height p0 p1 s u
        (forwardPoint netH height p0 p1 s u (x, y))).1 - x| ≤ 1 ∧
    |(inversePoint netH height p0 p1 s u
        (forwardPoint netH height p0 p1 s u (x, y))).2 - y| ≤ 1 := by
  have hscale : inferScale netH height ≠ 0 :=
    div_ne_zero (ne_of_gt hn) (ne_of_gt hh)
  have heq : inversePoint netH height p0 p1 s u
      (forwardPoint netH height p0 p1 s u (x, y)) = (x, y) := by
    unfold inversePoint forwardPoint
    have hs' : s ≠ 0 := ne_of_gt hs
    have hu' : u ≠ 0 := ne_of_gt hu
    apply Prod.ext
    · show ((x * inferScale netH height + p1) * u / s * s / u - p1) /
          inferScale netH height = x
      field_simp
    · show ((y * inferScale netH height + p0) * u / s * s / u - p0) /
          inferScale netH height = y
      field_simp
  refine ⟨heq, ?_, ?_⟩
  · rw [heq]; simp
  · rw [heq]; simp

/-- Witness for C2 at `netH = 256, height = 512, pads (12, 34), stride 8,
upsample 4, point (100, 200)`. -/
theorem coordinate_round_trip_witness :
    ((0 : ℚ) < 512 ∧ (0 : ℚ) < 256 ∧ (0 : ℚ) < 8 ∧ (0 : ℚ) < 4) ∧
    (inversePoint 256 512 12 34 8 4
        (forwardPoint 256 512 12 34 8 4 (100, 200)) = (100, 200) ∧
    |(inversePoint 256 512 12 34 8 4
        (forwardPoint 256 512 12 34 8 4 (100, 200))).1 - 100| ≤ 1 ∧
    |(inversePoint 256 512 12 34 8 4
        (forwardPoint 256 512 12 34 8 4 (100, 200))).2 - 200| ≤ 1) :=
  ⟨⟨by decide, by decide, by decide, by decide⟩,
    coordinate_round_trip 256 512 12 34 8 4 100 200
      (by decide) (by decide) (by decide) (by decide)⟩

/-! ### Option.mapM and pyIndex helpers -/

lemma mapM_option_cons {α β : Type} (f : α → Option β) (a : α) (l : List α) :
    (a :: l).mapM f = (f a).bind fun b => (l.mapM f).bind fun bs =>
      some (b :: bs) := by
  rw [List.mapM_cons]
  cases f a <;> simp

lemma mapM_option_get? {α β : Type} (f : α → Option β) :
    ∀ (l : List α) (ys : List β), l.mapM f = some ys →
      ∀ (i : ℕ) (x : α), l.get? i = some x → ys.get? i = f x := by
  intro l
  induction l with
  | nil => intro ys hys i x hx; simp at hx
  | cons a l ih =>
    intro ys hys i x hx
    rw [mapM_option_cons] at hys
    cases hfa : f a with
    | none => rw [hfa] at hys; simp at hys
    | some b =>
      rw [hfa] at hys
      cases hl : l.mapM f with
      | none => rw [hl] at hys; simp at hys
      | some bs =>
        rw [hl] at hys
        simp at hys
        subst hys
        cases i with
        | zero =>
          simp at hx
          subst hx
          simp [hfa]
        | succ j =>
          have hx' : l.get? j = some x := by simpa using hx
          simpa using ih bs hl j x hx'

lemma mapM_option_length {α β : Type} (f : α → Option β) :
    ∀ (l : List α) (ys : List β), l.mapM f = some ys →
      ys.length = l.length := by
  intro l
  induction l with
  | nil =>
    intro ys hys
    rw [List.mapM_nil] at hys
    have hy : ys = [] := by injection hys with h; exact h.symm
    simp [hy]
  | cons a l ih =>
    intro ys hys
    rw [mapM_option_cons] at hys
    cases hfa : f a with
    | none => rw [hfa] at hys; simp at hys
    | some b =>
      rw [hfa] at hys
      cases hl : l.mapM f with
      | none => rw [hl] at hys; simp at hys
      | some bs =>
        rw [hl] at hys
        simp at hys
        subst hys
        simp [ih bs hl]

lemma pyIndex_map {α β : Type} (f : α → β) (l : List α) (i : ℤ) :
    pyIndex (l.map f) i = (pyIndex l i).map f := by
  unfold pyIndex
  by_cases h0 : 0 ≤ i
  · simp [h0, List.get?_map]
  · by_cases h1 : (-i).toNat ≤ l.length
    · simp [h0, h1, List.get?_map]
    · simp [h0, h1]

/-- Unfolding of a successful `buildPose`. -/
lemma buildPose_eq_some (entry : List ℚ) (allk : List KeypointRow)
    (pose : Pose) (hb : buildPose entry allk = some pose) :
    ∃ ks c, (List.range num_keypoints).mapM (poseSlot entry allk) = some ks ∧
      entry.get? 18 = some c ∧ pose = ⟨ks, c⟩ := by
  unfold buildPose at hb
  cases hks : (List.range num_keypoints).mapM (poseSlot entry allk) with
  | none => rw [hks] at hb; simp at hb
  | some ks =>
    cases hc : entry.get? 18 with
    | none => rw [hks, hc] at hb; simp at hb
    | some c =>
      rw [hks, hc] at hb
      simp at hb
      exact ⟨ks, c, rfl, rfl, hb.symm⟩

/-- The keypoint slot `kid` of a successfully built pose is exactly the
value of `poseSlot` there. -/
lemma buildPose_get (entry : List ℚ) (allk : List KeypointRow) (pose : Pose)
    (hb : buildPose entry allk = some pose) (kid : ℕ)
    (hkid : kid < num_keypoints) :
    pose.kpts.get? kid = poseSlot entry allk kid := by
  obtain ⟨ks, c, hks, hc, hp⟩ := buildPose_eq_some entry allk pose hb
  subst hp
  exact mapM_option_get? (poseSlot entry allk) _ ks hks kid kid
    (List.get?_range hkid)

/-! ### C1: coordinates exposed past grouping are image-space -/

/-- C1: the rescale loop of `run_demo` maps every consolidated candidate
coordinate to `(x*stride/upsample_ratio - pad[1])/scale` (resp. `pad[0]`
for y) with `stride = 8` and `upsample_ratio = 4`, and every keypoint of a
pose built from the rescaled table is the integer truncation of exactly
those image-space coordinates — so coordinates exposed past grouping are
in original input-image space. -/
theorem skeleton_coords_image_space
    (scale : ℚ) (p0 p1 : ℤ) (allk : List KeypointRow)
    (entry : List ℚ) (pose : Pose)
    (hb : buildPose entry (rescaleKeypoints scale p0 p1 allk) = some pose) :
    (∀ i r, allk.get? i = some r →
      (rescaleKeypoints scale p0 p1 allk).get? i =
        some { r with
          x := (r.x * 8 / 4 - (p1 : ℚ)) / scale
          y := (r.y * 8 / 4 - (p0 : ℚ)) / scale }) ∧
    (∀ kid v r, kid < num_keypoints → entry.get? kid = some v → v ≠ -1 →
      pyIndex allk (ratTrunc v) = some r →
      pose.kpts.get? kid =
        some (ratTrunc ((r.x * 8 / 4 - (p1 : ℚ)) / scale),
              ratTrunc ((r.y * 8 / 4 - (p0 : ℚ)) / scale))) := by
  have hcast8 : ((stride : ℕ) : ℚ) = 8 := by norm_num [stride]
  have hcast4 : ((upsampleFactor : ℕ) : ℚ) = 4 := by norm_num [upsampleFactor]
  constructor
  · intro i r hir
    unfold rescaleKeypoints
    rw [List.get?_map, hir]
    simp [hcast8, hcast4]
  · intro kid v r hkid hv hne hr
    rw [buildPose_get entry _ pose hb kid hkid]
    unfold poseSlot
    rw [hv]
    simp only [hne, if_neg (by exact hne)]
    unfold rescaleKeypoints
    rw [pyIndex_map, hr]
    simp [hcast8, hcast4]

/-- Witness for C1: one candidate at heatmap coordinates (3, 5), scale 1/2,
pads (10, 20); its pose keypoint is the truncated image-space point. -/
theorem skeleton_coords_image_space_witness :
    (buildPose ((List.replicate 18 (0 : ℚ)) ++ [(7 : ℚ)])
        (rescaleKeypoints (1/2) 10 20 [⟨3, 5, 1, 0⟩]) =
      some ⟨List.replicate 18 ((-28 : ℤ), (0 : ℤ)), 7⟩) ∧
    ((∀ i r, ([⟨3, 5, 1, 0⟩] : List KeypointRow).get? i = some r →
      (rescaleKeypoints (1/2) 10 20 [⟨3, 5, 1, 0⟩]).get? i =
        some { r with
          x := (r.x * 8 / 4 - ((20 : ℤ) : ℚ)) / (1/2)
          y := (r.y * 8 / 4 - ((10 : ℤ) : ℚ)) / (1/2) }) ∧
    (∀ kid v r, kid < num_keypoints →
      ((List.replicate 18 (0 : ℚ)) ++ [(7 : ℚ)]).get? kid = some v →
      v ≠ -1 →
      pyIndex ([⟨3, 5, 1, 0⟩] : List KeypointRow) (ratTrunc v) = some r →
      (⟨List.replicate 18 ((-28 : ℤ), (0 : ℤ)), 7⟩ : Pose).kpts.get? kid =
        some (ratTrunc ((r.x * 8 / 4 - ((20 : ℤ) : ℚ)) / (1/2)),
              ratTrunc ((r.y * 8 / 4 - ((10 : ℤ) : ℚ)) / (1/2))))) := by
  have hb : buildPose ((List.replicate 18 (0 : ℚ)) ++ [(7 : ℚ)])
      (rescaleKeypoints (1/2) 10 20 [⟨3, 5, 1, 0⟩]) =
      some ⟨List.replicate 18 ((-28 : ℤ), (0 : ℤ)), 7⟩ := by
    norm_num [buildPose, poseSlot, pyIndex, ratTrunc, rescaleKeypoints,
      num_keypoints, stride, upsampleFactor, List.range_succ, List.replicate,
      List.mapM, List.mapM.loop, Int.floor_eq_iff, Int.ceil_eq_iff]
  exact ⟨hb, skeleton_coords_image_space (1/2) 10 20 [⟨3, 5, 1, 0⟩]
    ((List.replicate 18 (0 : ℚ)) ++ [(7 : ℚ)]) _ hb⟩

/-! ### C6: pose construction from pose entries -/

/-- C6: a `Pose` built by `run_demo` from a pose entry has 18 keypoint
slots; slot `kpt_id` equals the truncated coordinates of the candidate row
indexed by the stored (truncated float) global id when the slot is not the
sentinel `-1`, equals the absent marker `(-1, -1)` exactly when the slot
holds `-1`, and the pose confidence is slot 18 of the entry. -/
theorem pose_entry_slots (entry : List ℚ) (allk : List KeypointRow)
    (pose : Pose) (hb : buildPose entry allk = some pose) :
    pose.kpts.length = num_keypoints ∧
    (∀ kid v, kid < num_keypoints → entry.get? kid = some v →
      (v = -1 → pose.kpts.get? kid = some (-1, -1)) ∧
      (v ≠ -1 → ∀ r, pyIndex allk (ratTrunc v) = some r →
        pose.kpts.get? kid = some (ratTrunc r.x, ratTrunc r.y))) ∧
    (∀ c, entry.get? 18 = some c → pose.conf = c) := by
  obtain ⟨ks, c0, hks, hc0, hp⟩ := buildPose_eq_some entry allk pose hb
  refine ⟨?_, ?_, ?_⟩
  · rw [hp]
    have := mapM_option_length (poseSlot entry allk) _ ks hks
    simpa using this
  · intro kid v hkid hv
    have hget := buildPose_get entry allk pose hb kid hkid
    constructor
    · intro hm1
      rw [hget]
      unfold poseSlot
      rw [hv, hm1]
      simp
    · intro hne r hr
      rw [hget]
      unfold poseSlot
      rw [hv]
      simp [hne, hr]
  · intro c hc
    rw [hp]
    rw [hc0] at hc
    exact Option.some.inj hc

/-- Witness for C6: entry with slot 0 referencing candidate 0, slot 1 the
sentinel, confidence 5; the single candidate sits at (5/2, 3). -/
theorem pose_entry_slots_witness :
    (buildPose ((0 : ℚ) :: (-1 : ℚ) :: List.replicate 16 (0 : ℚ) ++ [(5 : ℚ)])
        [⟨5/2, 3, 9, 0⟩] =
      some ⟨((2 : ℤ), (3 : ℤ)) :: ((-1 : ℤ), (-1 : ℤ)) ::
        List.replicate 16 ((2 : ℤ), (3 : ℤ)), 5⟩) ∧
    ((⟨((2 : ℤ), (3 : ℤ)) :: ((-1 : ℤ), (-1 : ℤ)) ::
        List.replicate 16 ((2 : ℤ), (3 : ℤ)), 5⟩ : Pose).kpts.length =
      num_keypoints ∧
    (∀ kid v, kid < num_keypoints →
      ((0 : ℚ) :: (-1 : ℚ) :: List.replicate 16 (0 : ℚ) ++
        [(5 : ℚ)]).get? kid = some v →
      (v = -1 → (⟨((2 : ℤ), (3 : ℤ)) :: ((-1 : ℤ), (-1 : ℤ)) ::
        List.replicate 16 ((2 : ℤ), (3 : ℤ)), 5⟩ : Pose).kpts.get? kid =
          some (-1, -1)) ∧
      (v ≠ -1 → ∀ r, pyIndex ([⟨5/2, 3, 9, 0⟩] : List KeypointRow)
          (ratTrunc v) = some r →
        (⟨((2 : ℤ), (3 : ℤ)) :: ((-1 : ℤ), (-1 : ℤ)) ::
          List.replicate 16 ((2 : ℤ), (3 : ℤ)), 5⟩ : Pose).kpts.get? kid =
          some (ratTrunc r.x, ratTrunc r.y))) ∧
    (∀ c, ((0 : ℚ) :: (-1 : ℚ) :: List.replicate 16 (0 : ℚ) ++
        [(5 : ℚ)]).get? 18 = some c →
      (⟨((2 : ℤ), (3 : ℤ)) :: ((-1 : ℤ), (-1 : ℤ)) ::
        List.replicate 16 ((2 : ℤ), (3 : ℤ)), 5⟩ : Pose).conf = c)) := by
  have hb : buildPose
      ((0 : ℚ) :: (-1 : ℚ) :: List.replicate 16 (0 : ℚ) ++ [(5 : ℚ)])
      [⟨5/2, 3, 9, 0⟩] =
      some ⟨((2 : ℤ), (3 : ℤ)) :: ((-1 : ℤ), (-1 : ℤ)) ::
        List.replicate 16 ((2 : ℤ), (3 : ℤ)), 5⟩ := by
    norm_num [buildPose, poseSlot, pyIndex, ratTrunc, num_keypoints,
      List.range_succ, List.replicate, List.mapM, List.mapM.loop,
      Int.floor_eq_iff]
  exact ⟨hb, pose_entry_slots _ [⟨5/2, 3, 9, 0⟩] _ hb⟩

/-! ### C3: shape handling before grouping -/

lemma except_bind_ok {ε α β : Type} (b : α) (g : α → Except ε β) :
    (Except.ok b >>= g) = g b := rfl

lemma except_bind_error {ε α β : Type} (e : ε) (g : α → Except ε β) :
    ((Except.error e : Except ε α) >>= g) = Except.error e := rfl

lemma except_pure_eq {ε α : Type} (b : α) :
    (pure b : Except ε α) = Except.ok b := rfl

lemma mapM_except_isOk {ε α β : Type} (f : α → Except ε β) :
    ∀ l : List α, (l.mapM f).isOk = true ↔ ∀ a ∈ l, (f a).isOk = true := by
  intro l
  induction l with
  | nil =>
    rw [List.mapM_nil]
    simp [except_pure_eq, Except.isOk, Except.toBool]
  | cons a l ih =>
    rw [List.mapM_cons]
    cases hfa : f a with
    | error e =>
      rw [except_bind_error]
      constructor
      · intro h
        exact absurd h (by simp [Except.isOk, Except.toBool])
      · intro h
        have ha := h a (List.mem_cons_self a l)
        rw [hfa] at ha
        exact absurd ha (by simp [Except.isOk, Except.toBool])
    | ok b =>
      rw [except_bind_ok]
      cases hl : l.mapM f with
      | error e =>
        rw [hl] at ih
        rw [except_bind_error]
        constructor
        · intro h
          exact absurd h (by simp [Except.isOk, Except.toBool])
        · intro h
          have hall : ∀ x ∈ l, (f x).isOk = true := fun x hx =>
            h x (List.mem_cons_of_mem a hx)
          have hfalse := ih.mpr hall
          exact absurd hfalse (by simp [Except.isOk, Except.toBool])
      | ok bs =>
        rw [hl] at ih
        rw [except_bind_ok, except_pure_eq]
        constructor
        · intro _ x hx
          rcases List.mem_cons.mp hx with hxa | hxl
          · rw [hxa, hfa]; rfl
          · exact (ih.mp rfl) x hxl
        · intro _; rfl

lemma extractChannels_isOk (hs : List Channel) (n : ℕ) :
    (extractChannels hs n).isOk = true ↔ n ≤ hs.length := by
  unfold extractChannels
  rw [mapM_except_isOk]
  constructor
  · intro h
    by_contra hlt
    push_neg at hlt
    have hmem := h hs.length (List.mem_range.mpr hlt)
    rw [List.get?_eq_none.mpr (le_refl _)] at hmem
    exact absurd hmem (by simp [Except.isOk, Except.toBool])
  · intro h k hk
    have hk' : k < hs.length := lt_of_lt_of_le (List.mem_range.mp hk) h
    rw [List.get?_eq_get hk']
    rfl

lemma extractChannels_err_framePoses (extract : Channel → ℕ → List Cand)
    (group : List (List Cand) → Pafs → List (List ℚ) × List KeypointRow)
    (fd : FrameData)
    (h : (extractChannels fd.heatmaps num_keypoints).isOk = false) :
    framePoses extract group fd = none := by
  unfold framePoses
  cases hc : extractChannels fd.heatmaps num_keypoints with
  | error e => rfl
  | ok cs =>
    rw [hc] at h
    exact absurd h (by simp [Except.isOk, Except.toBool])

/-- C3 counterexample: a frame whose heatmap stack has 20 channels —
inconsistent with the expected 19 — is not treated as fatal: the
extraction loop succeeds and the frame runs to completion through the
grouping stage, whose output (one pose entry of 18 sentinels and score 9)
is consumed as usual. -/
theorem shape_inconsistency_not_fatal_counterexample :
    (List.replicate 20 ([] : Channel)).length ≠ 19 ∧
    (extractChannels (List.replicate 20 ([] : Channel))
      num_keypoints).isOk = true ∧
    framePoses (fun _ _ => [])
      (fun _ _ => ([List.replicate 18 (-1 : ℚ) ++ [(9 : ℚ)]], []))
      ⟨List.replicate 20 ([] : Channel), [], 1, [0, 0, 0, 0]⟩ =
      some [⟨List.replicate 18 ((-1 : ℤ), (-1 : ℤ)), 9⟩] := by
  refine ⟨by decide, ?_, ?_⟩
  · rw [extractChannels_isOk]
    decide
  · norm_num [framePoses, extractChannels, buildPoses, buildPose, poseSlot,
      rescaleKeypoints, num_keypoints, List.range_succ, List.replicate,
      List.mapM, List.mapM.loop, extractLoopState]
    rfl

/-- C3 amended: a frame aborts before grouping exactly when the heatmap
stack has fewer than `num_keypoints = 18` channels (uncaught indexing
error in the extraction loop); any count of at least 18 — including
counts inconsistent with 19 — passes no shape validation, and PAF shape
is never inspected by this code before grouping. -/
theorem heatmap_shape_gate (extract : Channel → ℕ → List Cand)
    (group : List (List Cand) → Pafs → List (List ℚ) × List KeypointRow)
    (fd : FrameData) (h : fd.heatmaps.length < num_keypoints) :
    framePoses extract group fd = none ∧
    (∀ fd' : FrameData,
      (extractChannels fd'.heatmaps num_keypoints).isOk = true ↔
        num_keypoints ≤ fd'.heatmaps.length) := by
  constructor
  · apply extractChannels_err_framePoses
    rw [← Bool.not_eq_true, extractChannels_isOk]
    omega
  · intro fd'
    exact extractChannels_isOk fd'.heatmaps num_keypoints

/-- Witness for the amended C3 at a 17-channel heatmap stack. -/
theorem heatmap_shape_gate_witness :
    ((⟨List.replicate 17 ([] : Channel), [], 1, []⟩ :
        FrameData).heatmaps.length < num_keypoints) ∧
    (framePoses (fun _ _ => []) (fun _ _ => ([], []))
      ⟨List.replicate 17 ([] : Channel), [], 1, []⟩ = none ∧
    (∀ fd' : FrameData,
      (extractChannels fd'.heatmaps num_keypoints).isOk = true ↔
        num_keypoints ≤ fd'.heatmaps.length)) :=
  ⟨by decide, heatmap_shape_gate (fun _ _ => []) (fun _ _ => ([], []))
    ⟨List.replicate 17 ([] : Channel), [], 1, []⟩ (by decide)⟩

/-! ### C4: degenerate frames are not errors -/

/-- C4: a frame for which the grouping stage assembles zero pose entries
raises no error: `current_poses` is the empty list and the frame loop
continues with the remaining frames. -/
theorem degenerate_frame_empty_ok (extract : Channel → ℕ → List Cand)
    (group : List (List Cand) → Pafs → List (List ℚ) × List KeypointRow)
    (trackP : List Pose → List Pose → Bool → List Pose)
    (track smooth : Bool) (fd : FrameData) (fds : List FrameData)
    (prev : List Pose) (chans : List Channel) (allk : List KeypointRow)
    (p0 p1 : ℤ)
    (hc : extractChannels fd.heatmaps num_keypoints = Except.ok chans)
    (hg : group (extractLoopState extract chans).2 fd.pafs = ([], allk))
    (hp0 : fd.pad.get? 0 = some p0) (hp1 : fd.pad.get? 1 = some p1)
    (htrk : ∀ pr sm, trackP pr [] sm = []) :
    framePoses extract group fd = some [] ∧
    runLoop extract group trackP track smooth (fd :: fds) prev =
      (runLoop extract group trackP track smooth fds
        (if track then [] else prev)).map (fun outs => [] :: outs) := by
  have hframe : framePoses extract group fd = some [] := by
    unfold framePoses
    rw [hc]
    dsimp only
    rw [hg]
    dsimp only
    rw [hp0, hp1]
    rfl
  refine ⟨hframe, ?_⟩
  show (match perFrame extract group trackP track smooth fd prev with
    | none => none
    | some (cur, prev') =>
      (runLoop extract group trackP track smooth fds prev').map
        fun outs => cur :: outs) = _
  have hpf : perFrame extract group trackP track smooth fd prev =
      some ([], if track then [] else prev) := by
    unfold perFrame
    rw [hframe]
    cases track with
    | false => simp
    | true => simp [htrk]
  rw [hpf]

/-- Witness for C4: one 18-channel frame whose grouper returns no entries,
followed by an empty tail, with tracking on. -/
theorem degenerate_frame_empty_ok_witness :
    (extractChannels
        (⟨List.replicate 18 ([] : Channel), [], 1, [0, 0, 0, 0]⟩ :
          FrameData).heatmaps num_keypoints =
      Except.ok (List.replicate 18 ([] : Channel)) ∧
     (fun (_ : List (List Cand)) (_ : Pafs) =>
        (([] : List (List ℚ)), ([] : List KeypointRow)))
       (extractLoopState (fun _ _ => [])
         (List.replicate 18 ([] : Channel))).2
       (⟨List.replicate 18 ([] : Channel), [], 1, [0, 0, 0, 0]⟩ :
         FrameData).pafs = ([], []) ∧
     (⟨List.replicate 18 ([] : Channel), [], 1, [0, 0, 0, 0]⟩ :
       FrameData).pad.get? 0 = some 0 ∧
     (⟨List.replicate 18 ([] : Channel), [], 1, [0, 0, 0, 0]⟩ :
       FrameData).pad.get? 1 = some 0) ∧
    (framePoses (fun _ _ => []) (fun _ _ => ([], []))
        ⟨List.replicate 18 ([] : Channel), [], 1, [0, 0, 0, 0]⟩ = some [] ∧
    runLoop (fun _ _ => []) (fun _ _ => ([], [])) (fun _ c _ => c)
        true false
        [⟨List.replicate 18 ([] : Channel), [], 1, [0, 0, 0, 0]⟩] [] =
      (runLoop (fun _ _ => []) (fun _ _ => ([], [])) (fun _ c _ => c)
        true false [] (if true then [] else [])).map
          (fun outs => [] :: outs)) := by
  have hc : extractChannels
      (⟨List.replicate 18 ([] : Channel), [], 1, [0, 0, 0, 0]⟩ :
        FrameData).heatmaps num_keypoints =
      Except.ok (List.replicate 18 ([] : Channel)) := by
    norm_num [extractChannels, num_keypoints, List.range_succ,
      List.replicate, List.mapM, List.mapM.loop]
    rfl
  exact ⟨⟨hc, rfl, rfl, rfl⟩,
    degenerate_frame_empty_ok (fun _ _ => []) (fun _ _ => ([], []))
      (fun _ c _ => c) true false
      ⟨List.replicate 18 ([] : Channel), [], 1, [0, 0, 0, 0]⟩ [] []
      (List.replicate 18 ([] : Channel)) [] 0 0 hc rfl rfl rfl
      (fun _ _ => rfl)⟩

/-! ### C5: the extraction loop's running counter -/

/-- The per-type candidate lists the extraction loop produces when started
at counter `c`: each call is handed the counter left by the previous one. -/
def expectedLists (extract : Channel → ℕ → List Cand) :
    List Channel → ℕ → List (List Cand)
  | [], _ => []
  | ch :: chs, c =>
    extract ch c :: expectedLists extract chs (c + (extract ch c).length)

lemma extractLoop_general (extract : Channel → ℕ → List Cand) :
    ∀ (chans : List Channel) (c : ℕ) (acc : List (List Cand)),
      chans.foldl
        (fun acc' ch =>
          let found := extract ch acc'.1
          (acc'.1 + found.length, acc'.2 ++ [found])) (c, acc) =
      (c + ((expectedLists extract chans c).map List.length).sum,
        acc ++ expectedLists extract chans c) := by
  intro chans
  induction chans with
  | nil => intro c acc; simp [expectedLists]
  | cons ch chs ih =>
    intro c acc
    rw [List.foldl_cons]
    dsimp only
    rw [ih]
    simp only [expectedLists, List.map_cons, List.sum_cons, Prod.mk.injEq]
    constructor
    · omega
    · simp

lemma extractLoopState_eq (extract : Channel → ℕ → List Cand)
    (chans : List Channel) :
    extractLoopState extract chans =
      (((expectedLists extract chans 0).map List.length).sum,
        expectedLists extract chans 0) := by
  unfold extractLoopState
  have h := extractLoop_general extract chans 0 []
  simpa using h

lemma expectedLists_lengths (extract : Channel → ℕ → List Cand)
    (counts : Channel → ℕ)
    (hcnt : ∀ ch c, (extract ch c).length = counts ch) :
    ∀ (chans : List Channel) (c : ℕ),
      (expectedLists extract chans c).map List.length = chans.map counts := by
  intro chans
  induction chans with
  | nil => intro c; simp [expectedLists]
  | cons ch chs ih => intro c; simp [expectedLists, hcnt, ih]

lemma extract_gids_range (extract : Channel → ℕ → List Cand)
    (hid : ∀ ch c i (hi : i < (extract ch c).length),
      ((extract ch c).get ⟨i, hi⟩).gid = c + i) (ch : Channel) (c : ℕ) :
    (extract ch c).map Cand.gid = List.range' c (extract ch c).length := by
  apply List.ext_get
  · simp [List.length_range']
  · intro i h1 h2
    have hi : i < (extract ch c).length := by simpa using h1
    have hgid := hid ch c i hi
    simp only [List.get_map, List.get_eq_getElem, List.getElem_range', one_mul]
    simpa using hgid

lemma expectedLists_gid_mono (extract : Channel → ℕ → List Cand)
    (hid : ∀ ch c i (hi : i < (extract ch c).length),
      ((extract ch c).get ⟨i, hi⟩).gid = c + i) :
    ∀ (chans : List Channel) (c : ℕ),
      (∀ g ∈ ((expectedLists extract chans c).map
          (List.map Cand.gid)).flatten, c ≤ g) ∧
      List.Pairwise (· < ·)
        ((expectedLists extract chans c).map (List.map Cand.gid)).flatten := by
  intro chans
  induction chans with
  | nil => intro c; simp [expectedLists]
  | cons ch chs ih =>
    intro c
    have hflat : ((expectedLists extract (ch :: chs) c).map
        (List.map Cand.gid)).flatten =
        (extract ch c).map Cand.gid ++
          ((expectedLists extract chs (c + (extract ch c).length)).map
            (List.map Cand.gid)).flatten := by
      simp [expectedLists]
    have hrange := extract_gids_range extract hid ch c
    obtain ⟨ihb, ihp⟩ := ih (c + (extract ch c).length)
    constructor
    · intro g hg
      rw [hflat] at hg
      rcases List.mem_append.mp hg with hg1 | hg2
      · rw [hrange] at hg1
        exact (List.mem_range'_1.mp hg1).1
      · exact le_trans (Nat.le_add_right c _) (ihb g hg2)
    · rw [hflat]
      rw [List.pairwise_append]
      refine ⟨?_, ihp, ?_⟩
      · rw [hrange]
        exact List.pairwise_lt_range' c _
      · intro a ha b hb
        rw [hrange] at ha
        have ha' := (List.mem_range'_1.mp ha).2
        have hb' := ihb b hb
        omega

/-- C5: in the extraction loop of `run_demo`, the counter handed to the
k-th call of `extract_keypoints` is the sum of the candidate counts
returned by the previous calls (starting from 0), and it advances by
exactly the count each call returns; under the hypothesis that
`extract_keypoints` assigns global ids starting at the passed counter, all
global ids produced in a frame are strictly increasing (hence unique)
across joint types, and the final `total_keypoints_num` equals the total
number of candidates found. -/
theorem extraction_counter_spec (extract : Channel → ℕ → List Cand)
    (counts : Channel → ℕ)
    (hcnt : ∀ ch c, (extract ch c).length = counts ch)
    (hid : ∀ ch c i (hi : i < (extract ch c).length),
      ((extract ch c).get ⟨i, hi⟩).gid = c + i)
    (chans : List Channel) :
    (∀ k, counterPassed extract chans k =
      ((chans.take k).map counts).sum) ∧
    (∀ k ch, chans.get? k = some ch →
      counterPassed extract chans (k + 1) =
        counterPassed extract chans k + counts ch) ∧
    (extractLoopState extract chans).1 =
      ((extractLoopState extract chans).2.flatten).length ∧
    (extractLoopState extract chans).1 = (chans.map counts).sum ∧
    List.Pairwise (· < ·)
      (((extractLoopState extract chans).2).map (List.map Cand.gid)).flatten := by
  have hcp : ∀ k, counterPassed extract chans k =
      ((chans.take k).map counts).sum := by
    intro k
    unfold counterPassed
    rw [extractLoopState_eq]
    rw [expectedLists_lengths extract counts hcnt]
  refine ⟨hcp, ?_, ?_, ?_, ?_⟩
  · intro k ch hch
    rw [hcp, hcp, List.take_succ]
    rw [← List.get?_eq_getElem?, hch]
    simp
  · rw [extractLoopState_eq]
    rw [List.length_flatten]
  · rw [extractLoopState_eq]
    exact congrArg List.sum (expectedLists_lengths extract counts hcnt chans 0)
  · rw [extractLoopState_eq]
    exact (expectedLists_gid_mono extract hid chans 0).2

/-- Witness for C5: two channels, an extractor returning one candidate per
channel with the id it was handed. -/
theorem extraction_counter_spec_witness :
    ((∀ ch c, ((fun (_ : Channel) (c : ℕ) =>
        [(⟨0, 0, 0, c⟩ : Cand)]) ch c).length = (fun _ => 1) ch) ∧
     (∀ ch c i (hi : i < ((fun (_ : Channel) (c : ℕ) =>
        [(⟨0, 0, 0, c⟩ : Cand)]) ch c).length),
      (((fun (_ : Channel) (c : ℕ) => [(⟨0, 0, 0, c⟩ : Cand)]) ch c).get
        ⟨i, hi⟩).gid = c + i)) ∧
    ((∀ k, counterPassed (fun _ c => [(⟨0, 0, 0, c⟩ : Cand)])
        [[], []] k =
        ((([[], []] : List Channel).take k).map (fun _ => (1 : ℕ))).sum) ∧
    (∀ k ch, ([[], []] : List Channel).get? k = some ch →
      counterPassed (fun _ c => [(⟨0, 0, 0, c⟩ : Cand)]) [[], []] (k + 1) =
        counterPassed (fun _ c => [(⟨0, 0, 0, c⟩ : Cand)]) [[], []] k + 1) ∧
    (extractLoopState (fun _ c => [(⟨0, 0, 0, c⟩ : Cand)]) [[], []]).1 =
      ((extractLoopState (fun _ c => [(⟨0, 0, 0, c⟩ : Cand)])
        [[], []]).2.flatten).length ∧
    (extractLoopState (fun _ c => [(⟨0, 0, 0, c⟩ : Cand)]) [[], []]).1 =
      (([[], []] : List Channel).map (fun _ => 1)).sum ∧
    List.Pairwise (· < ·)
      (((extractLoopState (fun _ c => [(⟨0, 0, 0, c⟩ : Cand)])
        [[], []]).2).map (List.map Cand.gid)).flatten) :=
  ⟨⟨fun _ _ => rfl,
    fun ch c i hi => by
      cases i with
      | zero => rfl
      | succ j => exact absurd hi (by simp)⟩,
    extraction_counter_spec (fun _ c => [(⟨0, 0, 0, c⟩ : Cand)])
      (fun _ => 1) (fun _ _ => rfl)
      (fun ch c i hi => by
        cases i with
        | zero => rfl
        | succ j => exact absurd hi (by simp))
      [[], []]⟩

/-! ### C7/C8/C9: the frame loop and tracking state -/

lemma runLoop_cons (extract : Channel → ℕ → List Cand)
    (group : List (List Cand) → Pafs → List (List ℚ) × List KeypointRow)
    (trackP : List Pose → List Pose → Bool → List Pose)
    (track smooth : Bool) (fd : FrameData) (fds : List FrameData)
    (prev : List Pose) :
    runLoop extract group trackP track smooth (fd :: fds) prev =
      match perFrame extract group trackP track smooth fd prev with
      | none => none
      | some (cur, prev') =>
        (runLoop extract group trackP track smooth fds prev').map
          fun outs => cur :: outs := rfl

lemma perFrame_true (extract : Channel → ℕ → List Cand)
    (group : List (List Cand) → Pafs → List (List ℚ) × List KeypointRow)
    (trackP : List Pose → List Pose → Bool → List Pose)
    (smooth : Bool) (fd : FrameData) (prev cur : List Pose)
    (h : framePoses extract group fd = some cur) :
    perFrame extract group trackP true smooth fd prev =
      some (trackP prev cur smooth, trackP prev cur smooth) := by
  unfold perFrame
  rw [h]
  rfl

lemma perFrame_none (extract : Channel → ℕ → List Cand)
    (group : List (List Cand) → Pafs → List (List ℚ) × List KeypointRow)
    (trackP : List Pose → List Pose → Bool → List Pose)
    (track smooth : Bool) (fd : FrameData) (prev : List Pose)
    (h : framePoses extract group fd = none) :
    perFrame extract group trackP track smooth fd prev = none := by
  unfold perFrame
  rw [h]

lemma runLoop_true_spec (extract : Channel → ℕ → List Cand)
    (group : List (List Cand) → Pafs → List (List ℚ) × List KeypointRow)
    (trackP : List Pose → List Pose → Bool → List Pose) (smooth : Bool) :
    ∀ (fds : List FrameData) (prev : List Pose) (outs : List (List Pose)),
      runLoop extract group trackP true smooth fds prev = some outs →
      outs.length = fds.length ∧
      (∀ fd cur, fds.get? 0 = some fd →
        framePoses extract group fd = some cur →
        outs.get? 0 = some (trackP prev cur smooth)) ∧
      (∀ k fd cur po, fds.get? (k + 1) = some fd →
        framePoses extract group fd = some cur →
        outs.get? k = some po →
        outs.get? (k + 1) = some (trackP po cur smooth)) := by
  intro fds
  induction fds with
  | nil =>
    intro prev outs h
    have houts : outs = [] := (Option.some.inj h).symm
    subst houts
    refine ⟨rfl, ?_, ?_⟩
    · intro fd cur h0 _
      simp at h0
    · intro k fd cur po h1 _ _
      simp at h1
  | cons fd0 fds ih =>
    intro prev outs h
    rw [runLoop_cons] at h
    cases hfp : framePoses extract group fd0 with
    | none =>
      rw [perFrame_none extract group trackP true smooth fd0 prev hfp] at h
      simp at h
    | some cur0 =>
      rw [perFrame_true extract group trackP smooth fd0 prev cur0 hfp] at h
      dsimp only at h
      cases hrl : runLoop extract group trackP true smooth fds
          (trackP prev cur0 smooth) with
      | none => rw [hrl] at h; simp at h
      | some outs' =>
        rw [hrl] at h
        have houts : outs = trackP prev cur0 smooth :: outs' :=
          (Option.some.inj h).symm
        subst houts
        obtain ⟨hlen', hhead', hsucc'⟩ :=
          ih (trackP prev cur0 smooth) outs' hrl
        refine ⟨by simp [hlen'], ?_, ?_⟩
        · intro fd cur h0 hc
          have hfd : fd0 = fd := by simpa using h0
          subst hfd
          rw [hfp] at hc
          have hcur : cur0 = cur := Option.some.inj hc
          subst hcur
          rfl
        · intro k fd cur po h1 hc hpo
          cases k with
          | zero =>
            have hpo' : trackP prev cur0 smooth = po := by simpa using hpo
            show outs'.get? 0 = some (trackP po cur smooth)
            rw [← hpo']
            exact hhead' fd cur (by simpa using h1) hc
          | succ j =>
            show outs'.get? (j + 1) = some (trackP po cur smooth)
            exact hsucc' j fd cur po (by simpa using h1) hc
              (by simpa using hpo)

/-- C7: with tracking enabled, every run starts from an empty
`previous_poses`; `track_poses` receives for frame 0 that empty list and
for frame k+1 exactly the finalized skeleton list of frame k, whose output
immediately becomes the next tracker state — a strict sequential
dependency chain with no out-of-order or skipped update. -/
theorem tracking_sequential (extract : Channel → ℕ → List Cand)
    (group : List (List Cand) → Pafs → List (List ℚ) × List KeypointRow)
    (trackP : List Pose → List Pose → Bool → List Pose) (smooth : Bool)
    (fds : List FrameData) (outs : List (List Pose))
    (h : run_demo extract group trackP true smooth fds = some outs) :
    outs.length = fds.length ∧
    (∀ fd cur, fds.get? 0 = some fd →
      framePoses extract group fd = some cur →
      outs.get? 0 = some (trackP [] cur smooth)) ∧
    (∀ k fd cur po, fds.get? (k + 1) = some fd →
      framePoses extract group fd = some cur →
      outs.get? k = some po →
      outs.get? (k + 1) = some (trackP po cur smooth)) :=
  runLoop_true_spec extract group trackP smooth fds [] outs h

/-- C8: the per-frame computation and the whole frame loop are
deterministic functions of their inputs: equal heatmap/PAF inputs, equal
configuration and equal tracker state produce equal pose lists and equal
identity assignments. -/
theorem per_frame_deterministic (extract : Channel → ℕ → List Cand)
    (group : List (List Cand) → Pafs → List (List ℚ) × List KeypointRow)
    (trackP : List Pose → List Pose → Bool → List Pose)
    (track smooth : Bool) (fd₁ fd₂ : FrameData) (prev₁ prev₂ : List Pose)
    (fds₁ fds₂ : List FrameData)
    (hfd : fd₁ = fd₂) (hprev : prev₁ = prev₂) (hfds : fds₁ = fds₂) :
    perFrame extract group trackP track smooth fd₁ prev₁ =
      perFrame extract group trackP track smooth fd₂ prev₂ ∧
    runLoop extract group trackP track smooth fds₁ prev₁ =
      runLoop extract group trackP track smooth fds₂ prev₂ := by
  subst hfd
  subst hprev
  subst hfds
  exact ⟨rfl, rfl⟩

/-- C9: with the track flag off, `track_poses` is never consulted (the
result is the same for every tracker function), the threaded
`previous_poses` state is returned unchanged by every frame, and the
run's output is exactly the per-frame map of `framePoses` — each frame's
skeleton list depends on that frame alone; moreover the command-line
driver forces `track = 0` whenever the input is still images
(`--video` empty). -/
theorem no_tracking_independent (extract : Channel → ℕ → List Cand)
    (group : List (List Cand) → Pafs → List (List ℚ) × List KeypointRow)
    (trackP : List Pose → List Pose → Bool → List Pose) (smooth : Bool)
    (fds : List FrameData) (prev : List Pose) (t : ℤ) :
    (∀ fd pr, perFrame extract group trackP false smooth fd pr =
      (framePoses extract group fd).map (fun cur => (cur, pr))) ∧
    runLoop extract group trackP false smooth fds prev =
      fds.mapM (framePoses extract group) ∧
    run_demo extract group trackP false smooth fds =
      fds.mapM (framePoses extract group) ∧
    effectiveTrack "" t = 0 := by
  have hpf : ∀ fd pr, perFrame extract group trackP false smooth fd pr =
      (framePoses extract group fd).map (fun cur => (cur, pr)) := by
    intro fd pr
    unfold perFrame
    cases framePoses extract group fd with
    | none => rfl
    | some cur => rfl
  have hrun : ∀ (fds' : List FrameData) (pr : List Pose),
      runLoop extract group trackP false smooth fds' pr =
        fds'.mapM (framePoses extract group) := by
    intro fds'
    induction fds' with
    | nil => intro pr; rfl
    | cons fd fds' ih =>
      intro pr
      rw [runLoop_cons, hpf, List.mapM_cons]
      cases hfp : framePoses extract group fd with
      | none => rfl
      | some cur =>
        dsimp only [Option.map_some']
        rw [ih pr]
        cases fds'.mapM (framePoses extract group) with
        | none => rfl
        | some rest => rfl
  exact ⟨hpf, hrun fds prev, hrun fds [], by simp [effectiveTrack]⟩

/-- Witness for C7: a single frame whose grouper emits one pose entry,
with an identity tracker. -/
theorem tracking_sequential_witness :
    (run_demo (fun _ _ => [])
      (fun _ _ => ([List.replicate 18 (-1 : ℚ) ++ [(9 : ℚ)]], []))
      (fun _ c _ => c) true false
      [⟨List.replicate 18 ([] : Channel), [], 1, [0, 0, 0, 0]⟩] =
      some [[⟨List.replicate 18 ((-1 : ℤ), (-1 : ℤ)), 9⟩]]) ∧
    (([[⟨List.replicate 18 ((-1 : ℤ), (-1 : ℤ)), 9⟩]] :
        List (List Pose)).length =
      ([⟨List.replicate 18 ([] : Channel), [], 1, [0, 0, 0, 0]⟩] :
        List FrameData).length ∧
    (∀ fd cur,
      ([⟨List.replicate 18 ([] : Channel), [], 1, [0, 0, 0, 0]⟩] :
        List FrameData).get? 0 = some fd →
      framePoses (fun _ _ => [])
        (fun _ _ => ([List.replicate 18 (-1 : ℚ) ++ [(9 : ℚ)]], [])) fd =
        some cur →
      ([[⟨List.replicate 18 ((-1 : ℤ), (-1 : ℤ)), 9⟩]] :
        List (List Pose)).get? 0 = some ((fun _ c _ => c)
          ([] : List Pose) cur false)) ∧
    (∀ k fd cur po,
      ([⟨List.replicate 18 ([] : Channel), [], 1, [0, 0, 0, 0]⟩] :
        List FrameData).get? (k + 1) = some fd →
      framePoses (fun _ _ => [])
        (fun _ _ => ([List.replicate 18 (-1 : ℚ) ++ [(9 : ℚ)]], [])) fd =
        some cur →
      ([[⟨List.replicate 18 ((-1 : ℤ), (-1 : ℤ)), 9⟩]] :
        List (List Pose)).get? k = some po →
      ([[⟨List.replicate 18 ((-1 : ℤ), (-1 : ℤ)), 9⟩]] :
        List (List Pose)).get? (k + 1) = some ((fun _ c _ => c)
          po cur false))) := by
  have hfp : framePoses (fun _ _ => [])
      (fun _ _ => ([List.replicate 18 (-1 : ℚ) ++ [(9 : ℚ)]], []))
      ⟨List.replicate 18 ([] : Channel), [], 1, [0, 0, 0, 0]⟩ =
      some [⟨List.replicate 18 ((-1 : ℤ), (-1 : ℤ)), 9⟩] := by
    norm_num [framePoses, extractChannels, buildPoses, buildPose, poseSlot,
      rescaleKeypoints, num_keypoints, List.range_succ, List.replicate,
      List.mapM, List.mapM.loop, extractLoopState]
    rfl
  have h : run_demo (fun _ _ => [])
      (fun _ _ => ([List.replicate 18 (-1 : ℚ) ++ [(9 : ℚ)]], []))
      (fun _ c _ => c) true false
      [⟨List.replicate 18 ([] : Channel), [], 1, [0, 0, 0, 0]⟩] =
      some [[⟨List.replicate 18 ((-1 : ℤ), (-1 : ℤ)), 9⟩]] := by
    unfold run_demo
    rw [runLoop_cons]
    rw [perFrame_true _ _ _ _ _ _ _ hfp]
    rfl
  exact ⟨h, tracking_sequential _ _ _ _ _ _ h⟩

/-- Witness for C8 at concrete equal inputs. -/
theorem per_frame_deterministic_witness :
    ((⟨[], [], 1, []⟩ : FrameData) = ⟨[], [], 1, []⟩ ∧
      ([] : List Pose) = [] ∧ ([] : List FrameData) = []) ∧
    (perFrame (fun _ _ => []) (fun _ _ => ([], [])) (fun _ c _ => c)
        true false ⟨[], [], 1, []⟩ [] =
      perFrame (fun _ _ => []) (fun _ _ => ([], [])) (fun _ c _ => c)
        true false ⟨[], [], 1, []⟩ [] ∧
    runLoop (fun _ _ => []) (fun _ _ => ([], [])) (fun _ c _ => c)
        true false [] [] =
      runLoop (fun _ _ => []) (fun _ _ => ([], [])) (fun _ c _ => c)
        true false [] []) :=
  ⟨⟨rfl, rfl, rfl⟩,
    per_frame_deterministic (fun _ _ => []) (fun _ _ => ([], []))
      (fun _ c _ => c) true false ⟨[], [], 1, []⟩ ⟨[], [], 1, []⟩ [] []
      [] [] rfl rfl rfl⟩

end Demo
